import Mathlib

/-!
Shallow embedding of the CPU-miner orchestration engine of `src/cpuminer.go`
(package main of the exccd node).  Machine integers are modelled as `Nat`
with explicit reduction modulo `2^32` / `2^64` where the Go code relies on
wrap-around; instants (`time.Time`) are modelled as `Int` seconds, with
`time.Now().After(t)` becoming strict `>`; channels are modelled by boolean
"signal fired / slot full" flags; the external collaborators (block hash,
compact-target decoding, header serialization, equihash verification,
timestamp update, consensus processing) are oracle functions gathered in an
environment record, exactly at the interface the Go code calls them.
-/

namespace ExccdMiner

/-- maxNonce from src/cpuminer.go line 29: the maximum value of the 32-bit
header nonce, `^uint32(0) = 2^32 - 1`. -/
def maxNonce : Nat := 2 ^ 32 - 1

/-- maxExtraNonce from src/cpuminer.go line 33: the maximum value of the
64-bit extra nonce, `^uint64(0) = 2^64 - 1`. -/
def maxExtraNonce : Nat := 2 ^ 64 - 1

/-- Reduction of a `Nat` to the value of a Go `uint32` holding it. -/
def u32 (x : Nat) : Nat := x % 2 ^ 32

/-- Reduction of a `Nat` to the value of a Go `uint64` holding it. -/
def u64 (x : Nat) : Nat := x % 2 ^ 64

/-- Block header fields of `wire.MsgBlock.Header` that the miner reads or
writes: the 64-bit extra-nonce area `ExtraData`, the 32-bit `Nonce`, the
`EquihashSolution` byte area, the compact difficulty `Bits` and the parent
hash `PrevBlock` (hashes are modelled as `Nat` identifiers). -/
structure Header where
  extraData : Nat
  nonce : Nat
  equihashSolution : List Nat
  bits : Nat
  prevBlock : Nat
deriving DecidableEq

/-- Oracle environment: the external collaborators called by the miner, at
the exact call boundary of src/cpuminer.go (header hashing, compact-target
decoding, header serialization and its error, equihash verification, the
transaction source's last-update stamp, the current time, and the external
`UpdateBlockTime` with its error), plus the `ReduceMinDifficulty` chain
parameter. -/
structure MinerEnv where
  n : Nat
  k : Nat
  blockHash : Header → Nat
  compactToBig : Nat → Nat
  serializeBytes : Header → List Nat
  serializeErr : Header → Bool
  validateEquihash : Nat → Nat → List Nat → Int → List Nat → Bool
  txLastUpdated : Int
  now : Int
  updateTime : Header → Header
  updateTimeErr : Bool
  reduceMinDifficulty : Bool

/-- callbackData from src/cpuminer.go lines 190-205: the per-attempt search
session state.  The channels `quit`, `term` and the ticker are not stored
here; a validate call receives their momentary state as `Signals`. -/
structure CallbackData where
  tid : Nat
  solved : Bool
  exiting : Bool
  header : Header
  headerBytes : List Nat
  hashesCompleted : Nat
  lastGenerated : Int
  lastTxUpdate : Int
deriving DecidableEq

/-- IsExiting from src/cpuminer.go lines 215-217: `data.solved || data.exiting`. -/
def IsExiting (d : CallbackData) : Bool := d.solved || d.exiting

/-- Momentary state of the three signal sources read by the non-blocking
selects: the per-worker abandon channel `term`, the pool shutdown channel
`quit`, and the periodic ticker. -/
structure Signals where
  termFired : Bool
  quitFired : Bool
  tickerFired : Bool
deriving DecidableEq

/-- Solution pointer handed to the validator: null probe, or a candidate
carrying the proof bytes that `equihash.ExtractSolution` yields for it. -/
inductive Sol where
  | null
  | cand (bytes : List Nat)
deriving DecidableEq

/-- Rule-violation classification of the consensus processor's error, as the
Go code distinguishes it: `blockchain.RuleError` with an error code, or any
other (unexpected) error. -/
inductive BlockError where
  | rule (errorCode : Nat)
  | unexpected
deriving DecidableEq

/-- Stand-in numeric value for the `blockchain.ErrHighHash` error-code
constant (its concrete value never matters, only its identity). -/
def ErrHighHash : Nat := 10

/-- Outcome of `blockManager.ProcessBlock`: the `isOrphan` flag and the
optional error. -/
structure ProcessResult where
  isOrphan : Bool
  err : Option BlockError
deriving DecidableEq

/-- Log classification used by submitBlock, one per logging site of
src/cpuminer.go lines 141-188. -/
inductive LogClass where
  | internalError
  | debugHighHash
  | rejected
  | rejectedOrphan
  | accepted
deriving DecidableEq

/-- submitBlock from src/cpuminer.go lines 141-188, as a function of the
consensus processor's outcome: returns the boolean result together with
which logging site ran.  The submission lock it takes is not modelled (the
function is pure here). -/
def submitBlock (reduceMinDifficulty : Bool) (r : ProcessResult) : Bool × LogClass :=
  match r.err with
  | some BlockError.unexpected => (false, LogClass.internalError)
  | some (BlockError.rule code) =>
    if reduceMinDifficulty ∧ code = ErrHighHash then (false, LogClass.debugHighHash)
    else (false, LogClass.rejected)
  | none =>
    if r.isOrphan then (false, LogClass.rejectedOrphan)
    else (true, LogClass.accepted)

/-- Staleness test of updateBlockTime, src/cpuminer.go lines 279-281: the
transaction source moved since the template was built and more than 3
seconds elapsed, or more than 60 seconds elapsed regardless. -/
def staleCond (env : MinerEnv) (d : CallbackData) : Prop :=
  (d.lastTxUpdate ≠ env.txLastUpdated ∧ env.now > d.lastGenerated + 3) ∨
    env.now > d.lastGenerated + 60

instance (env : MinerEnv) (d : CallbackData) : Decidable (staleCond env d) := by
  unfold staleCond; infer_instance

/-- Result of updateBlockTime: the updated session data, the hash count
reported to the speed monitor, and the boolean the Go function returns. -/
structure UBTResult where
  data : CallbackData
  reported : Nat
  ok : Bool

/-- updateBlockTime from src/cpuminer.go lines 270-306: report the hash
counter and reset it; fail on the staleness test; otherwise refresh the
recorded transaction stamp, apply the external timestamp update (failing on
its error), re-serialize the header into `headerBytes` (failing on a
serialization error), and succeed. -/
def updateBlockTime (env : MinerEnv) (d0 : CallbackData) : UBTResult :=
  let reported := d0.hashesCompleted
  let d1 := { d0 with hashesCompleted := 0 }
  if staleCond env d1 then ⟨d1, reported, false⟩
  else
    let d2 := { d1 with lastTxUpdate := env.txLastUpdated }
    if env.updateTimeErr then ⟨d2, reported, false⟩
    else
      let h := env.updateTime d2.header
      let d3 := { d2 with header := h, headerBytes := env.serializeBytes h }
      if env.serializeErr h then ⟨d3, reported, false⟩
      else ⟨d3, reported, true⟩

/-- Result of one validate call: the updated session data, the return code
of the three-valued protocol, and whether this call submitted a block,
incremented the per-parent mined counter, and notified the sibling workers. -/
structure ValidateResult where
  data : CallbackData
  code : Nat
  submitted : Bool
  minedInc : Bool
  notified : Bool

/-- validate from src/cpuminer.go lines 219-268 (the body of the pool-wide
serialized solution validator).  The non-blocking select over `term`, `quit`
and the ticker is modelled with that fixed priority.  On a candidate, the
proof bytes are spliced into the header's EquihashSolution area, the block
hash of the spliced header is compared against the decoded compact target,
and on success the header bytes are re-serialized, the external verifier is
consulted, and the submit / counter / notify effects fire. -/
def validate (env : MinerEnv) (sig : Signals) (d : CallbackData) (sol : Sol) :
    ValidateResult :=
  if d.exiting then ⟨d, 2, false, false, false⟩
  else
    match sol with
    | Sol.null =>
      if sig.termFired then
        ⟨{ d with exiting := true, solved := false }, 2, false, false, false⟩
      else if sig.quitFired then
        ⟨{ d with exiting := true, solved := false }, 2, false, false, false⟩
      else if sig.tickerFired then
        let r := updateBlockTime env d
        if r.ok then ⟨r.data, 0, false, false, false⟩
        else ⟨r.data, 2, false, false, false⟩
      else ⟨d, 0, false, false, false⟩
    | Sol.cand bytes =>
      let h1 := { d.header with equihashSolution := bytes }
      if env.blockHash h1 ≤ env.compactToBig h1.bits then
        let hb := env.serializeBytes h1
        let rc := env.validateEquihash env.n env.k hb (Int.ofNat h1.nonce) bytes
        if rc then
          ⟨{ d with header := h1, headerBytes := hb, solved := true }, 1,
            true, true, true⟩
        else
          ⟨{ d with header := h1, headerBytes := hb, solved := false }, 0,
            false, false, false⟩
      else ⟨{ d with header := h1 }, 0, false, false, false⟩

/-- notifyBlockDone from src/cpuminer.go lines 665-680: a non-blocking send
on every entry of the `miningStoppper` list except the caller's own (index
`i` is skipped when `i + 1 = ownTid`).  Each single-slot abandon channel is
a `Bool` (slot full); a non-blocking send fills the slot and is dropped if
it is already full. -/
def notifyBlockDone (stoppers : List Bool) (ownTid : Nat) : List Bool :=
  (List.range stoppers.length).map fun i =>
    if i + 1 = ownTid then stoppers.getD i false else true

/-- Value written into the header's ExtraData area on each outer iteration of
solveBlock (src/cpuminer.go line 361): `extraNonce + enOffset` with uint64
wrap-around. -/
def extraNonceWritten (extraNonce enOffset : Nat) : Nat := u64 (extraNonce + enOffset)

/-- Guard of solveBlock's inner loop (src/cpuminer.go line 369): the nonce
counter `i` is a uint32 and the loop runs while `i <= maxNonce` and the
session is not exiting. -/
def innerGuard (i : Nat) (exiting : Bool) : Bool := decide (i ≤ maxNonce) && !exiting

/-- Guard of solveBlock's outer loop (src/cpuminer.go line 358): the extra
nonce counter is a uint64 and the loop runs while `extraNonce < maxExtraNonce`
and the session is not exiting. -/
def outerGuard (extraNonce : Nat) (exiting : Bool) : Bool :=
  decide (extraNonce < maxExtraNonce) && !exiting

/-- Cursor of solveBlock's nested enumeration: the current extra-nonce and
nonce counter values. -/
structure LoopCursor where
  extraNonce : Nat
  nonce : Nat
deriving DecidableEq

/-- One cursor advance of solveBlock's nested loops absent any terminal
condition, from src/cpuminer.go lines 358-394: the inner counter is
incremented with uint32 wrap-around and the inner loop continues while
`i <= maxNonce`; only if that guard failed would the outer loop advance the
extra nonce (with uint64 wrap-around) and restart the nonce at 0. -/
def loopStep (c : LoopCursor) : LoopCursor :=
  let i := u32 (c.nonce + 1)
  if i ≤ maxNonce then { c with nonce := i }
  else { extraNonce := u64 (c.extraNonce + 1), nonce := 0 }

/-- The (extraNonce counter, nonce counter) pair visited by the k-th
iteration of solveBlock's nested enumeration absent any terminal condition,
starting from (0, 0). -/
def cursorAfter : Nat → LoopCursor
  | 0 => ⟨0, 0⟩
  | k + 1 => loopStep (cursorAfter k)

/-- Result of one pass of solveBlock's inner loop body up to the evaluator
invocation: the session data after the non-blocking select, whether the body
returned early (aborting the attempt), and whether `equihash.SolveEquihash`
was invoked on this pass. -/
structure InnerIterResult where
  data : CallbackData
  aborted : Bool
  invoked : Bool

/-- One pass of solveBlock's inner loop body (src/cpuminer.go lines
369-393): the non-blocking select over `term`, `quit` and the ticker runs
first (with that priority); on `term` or `quit` the attempt aborts, on a
ticker fire `updateBlockTime` runs and a stale result aborts; only on
fall-through is `header.Nonce` set to `i` and the evaluator invoked. -/
def solveBlockInnerIter (env : MinerEnv) (sig : Signals) (d : CallbackData)
    (i : Nat) : InnerIterResult :=
  if sig.termFired then ⟨{ d with exiting := true, solved := false }, true, false⟩
  else if sig.quitFired then ⟨{ d with exiting := true, solved := false }, true, false⟩
  else if sig.tickerFired then
    let r := updateBlockTime env d
    if r.ok then
      ⟨{ r.data with header := { r.data.header with nonce := u32 i } }, false, true⟩
    else ⟨r.data, true, false⟩
  else ⟨{ d with header := { d.header with nonce := u32 i } }, false, true⟩

/-- Events a search session (one solveBlock run) reacts to: one pass of the
inner loop's non-blocking select, or one validate callback issued by the
evaluator while it runs. -/
inductive SessionEv where
  | sel (sig : Signals)
  | val (sig : Signals) (sol : Sol)
deriving DecidableEq

/-- State of one search session: the callback data, solveBlock's return
value once the attempt has ended (none while it is still searching), and
how many submitBlock calls the validator has performed in this session. -/
structure SessionState where
  data : CallbackData
  finished : Option Bool
  submits : Nat
deriving DecidableEq

/-- Initial callbackData built by solveBlock (src/cpuminer.go lines
336-349): not solved, not exiting, zero hash count, the generation and
transaction-source stamps read now. -/
def initCallbackData (env : MinerEnv) (tid : Nat) (h : Header) : CallbackData :=
  { tid := tid, solved := false, exiting := false, header := h, headerBytes := [],
    hashesCompleted := 0, lastGenerated := env.now, lastTxUpdate := env.txLastUpdated }

/-- One step of a search session.  A `sel` event is the inner loop's select
(src/cpuminer.go lines 370-387): `term` and `quit` abort the attempt with
return value false, a ticker fire aborts exactly when `updateBlockTime`
reports stale.  A `val` event is one validate call; after the evaluator
returns, solveBlock's loop conditions end the attempt with return value
`data.solved` once `IsExiting` holds (src/cpuminer.go lines 358, 369, 397).
Events after the attempt has ended are ignored. -/
def sessionStep (env : MinerEnv) (s : SessionState) (e : SessionEv) : SessionState :=
  match s.finished with
  | some _ => s
  | none =>
    match e with
    | SessionEv.sel sig =>
      if sig.termFired then
        { s with data := { s.data with exiting := true, solved := false },
                 finished := some false }
      else if sig.quitFired then
        { s with data := { s.data with exiting := true, solved := false },
                 finished := some false }
      else if sig.tickerFired then
        let r := updateBlockTime env s.data
        if r.ok then { s with data := r.data }
        else { s with data := r.data, finished := some false }
      else s
    | SessionEv.val sig sol =>
      let r := validate env sig s.data sol
      let s2 := { s with data := r.data,
                         submits := s.submits + (if r.submitted then 1 else 0) }
      if IsExiting r.data then { s2 with finished := some r.data.solved } else s2

/-- A whole search session: fold the steps over the event script, starting
from solveBlock's initial callbackData. -/
def runSession (env : MinerEnv) (tid : Nat) (h : Header) (evs : List SessionEv) :
    SessionState :=
  evs.foldl (sessionStep env)
    { data := initCallbackData env tid h, finished := none, submits := 0 }

/-- The boolean solveBlock returns for a session: the recorded result when
the attempt ended inside the loops, else `data.solved` (the value of the
final `return data.solved`, src/cpuminer.go line 397). -/
def solveBlockResult (s : SessionState) : Bool :=
  match s.finished with
  | some b => b
  | none => s.data.solved

/-- Total number of submitBlock calls one discrete-mode (GenerateNBlocks)
template attempt performs: the validator's submits during solveBlock, plus
the caller's own `m.submitBlock(block)` when solveBlock returns true
(src/cpuminer.go lines 764-766). -/
def discreteModeSubmits (env : MinerEnv) (tid : Nat) (h : Header)
    (evs : List SessionEv) : Nat :=
  let s := runSession env tid h evs
  s.submits + (if solveBlockResult s then 1 else 0)

/-- State the miningWorkerController owns: `running` are the ids of the
workers whose quit channels sit in `runningWorkers`, in creation order;
`stoppers` is the length of the append-only `miningStoppper` list (worker
ids are assigned from it); `retired` lists the ids whose channel the
controller closed, in closing order. -/
structure CtrlState where
  running : List Nat
  stoppers : Nat
  retired : List Nat
deriving DecidableEq

/-- launchWorkers from src/cpuminer.go lines 498-507: each new worker's quit
channel is appended to `runningWorkers`, its abandon channel to
`miningStoppper`, and its id is `len(miningStoppper)` after the append. -/
def launchWorkers : Nat → CtrlState → CtrlState
  | 0, st => st
  | k + 1, st =>
    launchWorkers k
      { st with running := st.running ++ [st.stoppers + 1], stoppers := st.stoppers + 1 }

/-- Retirement loop of the controller (src/cpuminer.go lines 531-535): close
the quit channel of the most recently created workers, one at a time from
the end of `runningWorkers`, until only `target` remain.  The Go loop
counter is a uint32 counting down, so the loop is only well defined for
`target ≥ 1` — which is the only way it is ever entered, because
SetNumWorkers(0) stops the whole miner instead of signalling a resize. -/
def retireWorkers (target : Nat) (st : CtrlState) : CtrlState :=
  if st.running.length ≤ target then st
  else
    retireWorkers target
      { st with running := st.running.dropLast,
                retired := st.retired ++ [st.running.getLastD 0] }
termination_by st.running.length
decreasing_by simp only [List.length_dropLast]; omega

/-- The updateNumWorkers branch of miningWorkerController (src/cpuminer.go
lines 517-535): no change when the live count equals the target, launch the
deficit when it is below, retire the surplus (most recent first) when it is
above. -/
def processResize (target : Nat) (st : CtrlState) : CtrlState :=
  let numRunning := st.running.length
  if target = numRunning then st
  else if numRunning < target then launchWorkers (target - numRunning) st
  else retireWorkers target st

/-- The supervisor state fields SetNumWorkers touches: the configured worker
count (a uint32), the running flag and the discrete-mining flag. -/
structure MinerSt where
  numWorkers : Nat
  started : Bool
  discreteMining : Bool
deriving DecidableEq

/-- Stop from src/cpuminer.go lines 582-596: a no-op unless the miner is
started and not in discrete mode; otherwise the quit channel is closed, the
tasks joined, and the started flag cleared.  The second component records
whether the stop was actually performed. -/
def stopMiner (st : MinerSt) : MinerSt × Bool :=
  if st.started && !st.discreteMining then ({ st with started := false }, true)
  else (st, false)

/-- Result of SetNumWorkers: the new supervisor state, whether Stop actually
stopped the miner, and whether the controller wake-up signal was sent on
updateNumWorkers. -/
structure SetNumWorkersResult where
  st : MinerSt
  stopPerformed : Bool
  signalled : Bool
deriving DecidableEq

/-- SetNumWorkers from src/cpuminer.go lines 631-653: a zero argument first
calls Stop; a negative argument resets the configured count to the platform
default `dflt` (chaincfg.CPUMinerThreads); otherwise the count becomes
`uint32(n)`; finally, if the started flag is (still) set, the controller
wake-up signal is sent. -/
def setNumWorkers (dflt : Nat) (n : Int) (st0 : MinerSt) : SetNumWorkersResult :=
  let p := if n = 0 then stopMiner st0 else (st0, false)
  let st1 := p.1
  let st2 :=
    if n < 0 then { st1 with numWorkers := dflt }
    else { st1 with numWorkers := n.toNat % 2 ^ 32 }
  { st := st2, stopPerformed := p.2, signalled := st2.started }

/-- Two's-complement reading of a `Nat` as a Go int32. -/
def toInt32 (x : Nat) : Int :=
  if x % 2 ^ 32 < 2 ^ 31 then (x % 2 ^ 32 : Int) else (x % 2 ^ 32 : Int) - 2 ^ 32

/-- NumWorkers from src/cpuminer.go lines 658-663: the configured count read
back as an int32. -/
def NumWorkers (st : MinerSt) : Int := toInt32 st.numWorkers

/-- Events of the shutdown phase: the controller closing one worker's quit
channel, a worker reporting a hash count to the speed monitor, a worker
exiting (its workerWg.Done), the controller's workerWg.Wait returning, and
the controller closing speedMonitorQuit. -/
inductive ShutdownEv where
  | closeWorkerQuit (w : Nat)
  | workerReport (w : Nat) (hashes : Nat)
  | workerExit (w : Nat)
  | workersWaited
  | closeSpeedMonitorQuit
deriving DecidableEq

/-- Discriminator: is this event a worker's hash-count report. -/
def isReport : ShutdownEv → Bool
  | ShutdownEv.workerReport _ _ => true
  | _ => false

/-- Discriminator: is this event a worker exit. -/
def isExit : ShutdownEv → Bool
  | ShutdownEv.workerExit _ => true
  | _ => false

/-- Discriminator: is this event the controller closing a worker's quit
channel. -/
def isCloseQuit : ShutdownEv → Bool
  | ShutdownEv.closeWorkerQuit _ => true
  | _ => false

/-- The worker an event belongs to, if any. -/
def evWorker : ShutdownEv → Option Nat
  | ShutdownEv.closeWorkerQuit w => some w
  | ShutdownEv.workerReport w _ => some w
  | ShutdownEv.workerExit w => some w
  | _ => none

/-- Event sequence the quit branch of miningWorkerController emits
(src/cpuminer.go lines 537-549): close every live worker's quit channel,
then workerWg.Wait, then close speedMonitorQuit. -/
def controllerShutdownEvents (ws : List Nat) : List ShutdownEv :=
  ws.map ShutdownEv.closeWorkerQuit ++
    [ShutdownEv.workersWaited, ShutdownEv.closeSpeedMonitorQuit]

/-- Well-formedness of a whole-system shutdown trace, encoding what the Go
synchronization primitives guarantee: every worker exit precedes the
controller's workerWg.Wait return (WaitGroup semantics, src/cpuminer.go
line 547); every worker report precedes that worker's exit (a worker sends
on updateHashes only before its workerWg.Done, src/cpuminer.go line 485);
and closeSpeedMonitorQuit only occurs after some workerWg.Wait return (the
controller's statement order, src/cpuminer.go lines 547-548). -/
def WFShutdown (tr : List ShutdownEv) : Prop :=
  (∀ i j : Fin tr.length, isExit (tr.get i) = true →
      tr.get j = ShutdownEv.workersWaited → (i : Nat) < j) ∧
  (∀ i : Fin tr.length, isReport (tr.get i) = true →
      ∃ m : Fin tr.length, (i : Nat) < m ∧ isExit (tr.get m) = true ∧
        evWorker (tr.get m) = evWorker (tr.get i)) ∧
  (∀ j : Fin tr.length, tr.get j = ShutdownEv.closeSpeedMonitorQuit →
      ∃ m : Fin tr.length, (m : Nat) < j ∧ tr.get m = ShutdownEv.workersWaited)

instance (tr : List ShutdownEv) : Decidable (WFShutdown tr) := by
  unfold WFShutdown; infer_instance

/-- Concrete oracle environment for witnesses and counterexamples: every
candidate hashes to 0 against target 1 and the external verifier accepts. -/
def env0 : MinerEnv :=
  { n := 96, k := 5,
    blockHash := fun _ => 0,
    compactToBig := fun _ => 1,
    serializeBytes := fun _ => [7],
    serializeErr := fun _ => false,
    validateEquihash := fun _ _ _ _ _ => true,
    txLastUpdated := 0,
    now := 0,
    updateTime := fun h => h,
    updateTimeErr := false,
    reduceMinDifficulty := false }

/-- Concrete header for witnesses and counterexamples. -/
def header0 : Header :=
  { extraData := 0, nonce := 0, equihashSolution := [], bits := 0, prevBlock := 0 }

/-- Fresh session data over `env0` and `header0`. -/
def d0 : CallbackData := initCallbackData env0 1 header0

/-- Variant of `env0` whose external verifier rejects every candidate. -/
def envReject : MinerEnv := { env0 with validateEquihash := fun _ _ _ _ _ => false }

/-- Variant of `env0` whose clock stands 100 seconds after template
generation, making any template built at time 0 stale by the 60-second
rule. -/
def envStale : MinerEnv := { env0 with now := 100 }

theorem updateBlockTime_solved (env : MinerEnv) (d : CallbackData) :
    (updateBlockTime env d).data.solved = d.solved := by
  by_cases h1 : staleCond env { d with hashesCompleted := 0 }
  · simp [updateBlockTime, h1]
  · by_cases h2 : env.updateTimeErr
    · simp [updateBlockTime, h1, h2]
    · by_cases h3 : env.serializeErr (env.updateTime d.header)
      · simp [updateBlockTime, h1, h2, h3]
      · simp [updateBlockTime, h1, h2, h3]

theorem updateBlockTime_exiting (env : MinerEnv) (d : CallbackData) :
    (updateBlockTime env d).data.exiting = d.exiting := by
  by_cases h1 : staleCond env { d with hashesCompleted := 0 }
  · simp [updateBlockTime, h1]
  · by_cases h2 : env.updateTimeErr
    · simp [updateBlockTime, h1, h2]
    · by_cases h3 : env.serializeErr (env.updateTime d.header)
      · simp [updateBlockTime, h1, h2, h3]
      · simp [updateBlockTime, h1, h2, h3]

/-- C8: submitBlock never propagates an error: it returns a bare boolean,
false for an unexpected (non-rule) error, for every rule violation (the
ReduceMinDifficulty high-hash timing case merely logs at debug severity),
and for an accepted-but-orphan outcome, and true exactly when the block is
accepted and connected; the failure classes differ only in the log class. -/
theorem C8_submitBlock_boolean_outcome (rmd : Bool) (r : ProcessResult) :
    ((submitBlock rmd r).1 = true ↔ r.err = none ∧ r.isOrphan = false) ∧
    (r.err = some BlockError.unexpected →
      submitBlock rmd r = (false, LogClass.internalError)) ∧
    (∀ code, r.err = some (BlockError.rule code) →
      (submitBlock rmd r).1 = false ∧
      ((submitBlock rmd r).2 = LogClass.debugHighHash ↔
        rmd = true ∧ code = ErrHighHash)) ∧
    (r.err = none → r.isOrphan = true →
      submitBlock rmd r = (false, LogClass.rejectedOrphan)) ∧
    (r.err = none → r.isOrphan = false →
      submitBlock rmd r = (true, LogClass.accepted)) := by
  obtain ⟨o, err⟩ := r
  refine ⟨?_, ?_, ?_, ?_, ?_⟩
  · rcases err with _ | (code | _)
    · cases o <;> simp [submitBlock]
    · simp only [submitBlock]
      split <;> simp
    · simp [submitBlock]
  · intro h
    rcases err with _ | (code | _) <;> simp_all [submitBlock]
  · intro code hcode
    rcases err with _ | (c | _) <;> simp_all only [Option.some.injEq, reduceCtorEq,
      BlockError.rule.injEq]
    · subst hcode
      simp only [submitBlock]
      split <;> simp_all
  · intro h1 h2
    rcases err with _ | e
    · subst h2; simp [submitBlock]
    · exact Option.noConfusion h1
  · intro h1 h2
    rcases err with _ | e
    · subst h2; simp [submitBlock]
    · exact Option.noConfusion h1

/-- C2: on a timer fire, updateBlockTime reports failure (the attempt is
declared stale and aborts) iff the transaction source moved since template
creation and more than 3 seconds elapsed, or more than 60 seconds elapsed
regardless — or the external timestamp update or the header
re-serialization fails; and the solveBlock select and the validator's
null-probe timer branch abort exactly when updateBlockTime fails. -/
theorem C2_updateBlockTime_stale_iff (env : MinerEnv) (d : CallbackData) :
    ((updateBlockTime env d).ok = false ↔
      ((d.lastTxUpdate ≠ env.txLastUpdated ∧ env.now > d.lastGenerated + 3) ∨
        env.now > d.lastGenerated + 60) ∨
      env.updateTimeErr = true ∨
      env.serializeErr (env.updateTime d.header) = true) ∧
    (∀ s : SessionState, s.finished = none → s.data = d →
      ((sessionStep env s (SessionEv.sel ⟨false, false, true⟩)).finished = some false ↔
        (updateBlockTime env d).ok = false)) ∧
    (d.exiting = false →
      ((validate env ⟨false, false, true⟩ d Sol.null).code = 2 ↔
        (updateBlockTime env d).ok = false)) := by
  have hstale : staleCond env { d with hashesCompleted := 0 } ↔
      ((d.lastTxUpdate ≠ env.txLastUpdated ∧ env.now > d.lastGenerated + 3) ∨
        env.now > d.lastGenerated + 60) := Iff.rfl
  refine ⟨?_, ?_, ?_⟩
  · by_cases h1 : staleCond env { d with hashesCompleted := 0 }
    · simp only [updateBlockTime]
      simp only [h1, if_true]
      simp [hstale.mp h1]
    · have hA : ¬ ((d.lastTxUpdate ≠ env.txLastUpdated ∧ env.now > d.lastGenerated + 3) ∨
          env.now > d.lastGenerated + 60) := fun hA => h1 (hstale.mpr hA)
      by_cases h2 : env.updateTimeErr
      · simp [updateBlockTime, h1, h2, hA]
      · by_cases h3 : env.serializeErr (env.updateTime d.header)
        · simp [updateBlockTime, h1, h2, h3, hA]
        · simp [updateBlockTime, h1, h2, h3, hA]
  · intro s hf hd
    subst hd
    obtain ⟨dd, fin, sb⟩ := s
    simp only at hf
    subst hf
    by_cases hok : (updateBlockTime env dd).ok
    · simp [sessionStep, hok]
    · have hok2 : (updateBlockTime env dd).ok = false := by simpa using hok
      simp [sessionStep, hok2]
  · intro hne
    by_cases hok : (updateBlockTime env d).ok
    · simp [validate, hne, hok]
    · have hok2 : (updateBlockTime env d).ok = false := by simpa using hok
      simp [validate, hne, hok2]

/-- Session data identical to `d0` but already marked solved (not exiting):
the state validate leaves behind after a successful candidate. -/
def dSolved : CallbackData := { d0 with solved := true }

/-- Session data identical to `d0` but already marked exiting. -/
def dExiting : CallbackData := { d0 with exiting := true }

/-- C3 counterexample: a session that is terminal because it is solved (but
not exiting) gets return code 0, not 2, on a quiet null probe — the entry
check of validate reads only the exiting flag; and on a timer fire whose
staleness test trips (60 seconds elapsed under `envStale`), validate
returns 2 but does not mark the session terminal (both flags stay false). -/
theorem C3_counterexample :
    dSolved.solved = true ∧ dSolved.exiting = false ∧
    (validate env0 ⟨false, false, false⟩ dSolved Sol.null).code = 0 ∧
    (validate envStale ⟨false, false, true⟩ d0 Sol.null).code = 2 ∧
    (validate envStale ⟨false, false, true⟩ d0 Sol.null).data.exiting = false ∧
    (validate envStale ⟨false, false, true⟩ d0 Sol.null).data.solved = false := by
  decide

/-- C3 amended: on a null probe the validator never returns 1 and never
submits; it returns 2 with everything unchanged when the exiting flag is
already set (the solved flag alone does not short-circuit); an abandon or
shutdown signal marks the session exiting and returns 2; a timer fire
returns 2 exactly when updateBlockTime fails but leaves the solved and
exiting flags unchanged (the session is not marked terminal); with no
signal pending it returns 0. -/
theorem C3_null_probe_behavior (env : MinerEnv) (sig : Signals) (d : CallbackData) :
    ((validate env sig d Sol.null).code ≠ 1) ∧
    ((validate env sig d Sol.null).submitted = false) ∧
    (d.exiting = true → validate env sig d Sol.null = ⟨d, 2, false, false, false⟩) ∧
    (d.exiting = false → sig.termFired = true →
      (validate env sig d Sol.null).code = 2 ∧
      (validate env sig d Sol.null).data.exiting = true) ∧
    (d.exiting = false → sig.termFired = false → sig.quitFired = true →
      (validate env sig d Sol.null).code = 2 ∧
      (validate env sig d Sol.null).data.exiting = true) ∧
    (d.exiting = false → sig.termFired = false → sig.quitFired = false →
      sig.tickerFired = true →
      ((validate env sig d Sol.null).code =
        if (updateBlockTime env d).ok then 0 else 2) ∧
      (validate env sig d Sol.null).data.exiting = false ∧
      (validate env sig d Sol.null).data.solved = d.solved) ∧
    (d.exiting = false → sig.termFired = false → sig.quitFired = false →
      sig.tickerFired = false →
      validate env sig d Sol.null = ⟨d, 0, false, false, false⟩) := by
  obtain ⟨t, q, tk⟩ := sig
  by_cases he : d.exiting
  · simp [validate, he]
  · have he2 : d.exiting = false := by simpa using he
    cases t
    · cases q
      · cases tk
        · simp [validate, he2]
        · by_cases hok : (updateBlockTime env d).ok
          · simp [validate, he2, hok, updateBlockTime_solved, updateBlockTime_exiting]
          · have hok2 : (updateBlockTime env d).ok = false := by simpa using hok
            simp [validate, he2, hok2, updateBlockTime_solved, updateBlockTime_exiting]
      · simp [validate, he2]
    · simp [validate, he2]

/-- C4 counterexample: a candidate delivered to a session whose exiting flag
is set returns 2 — not 1 — even though its hash is within the target and
the external verifier confirms it, and nothing is submitted. -/
theorem C4_counterexample :
    (env0.blockHash { dExiting.header with equihashSolution := [1] } ≤
      env0.compactToBig dExiting.header.bits) ∧
    env0.validateEquihash env0.n env0.k
      (env0.serializeBytes { dExiting.header with equihashSolution := [1] })
      (Int.ofNat dExiting.header.nonce) [1] = true ∧
    (validate env0 ⟨false, false, false⟩ dExiting (Sol.cand [1])).code = 2 ∧
    (validate env0 ⟨false, false, false⟩ dExiting (Sol.cand [1])).submitted = false ∧
    (validate env0 ⟨false, false, false⟩ dExiting (Sol.cand [1])).data.solved = false := by
  decide

/-- C4 amended: for a candidate delivered while the session is not already
marked exiting, the validator returns 1 iff the spliced header's hash is ≤
the decoded target and the external verifier confirms; in that case it
submits, increments the per-parent counter, notifies the siblings
(non-blocking best-effort send on every other entry of miningStoppper) and
marks the session solved; otherwise it returns 0, submits nothing and never
newly marks the session solved.  (A candidate delivered to an
already-exiting session returns 2 untouched — the counterexample.) -/
theorem C4_candidate_accept_iff (env : MinerEnv) (sig : Signals) (d : CallbackData)
    (bytes : List Nat) (hne : d.exiting = false) :
    ((validate env sig d (Sol.cand bytes)).code = 1 ↔
      (env.blockHash { d.header with equihashSolution := bytes } ≤
          env.compactToBig d.header.bits ∧
        env.validateEquihash env.n env.k
          (env.serializeBytes { d.header with equihashSolution := bytes })
          (Int.ofNat d.header.nonce) bytes = true)) ∧
    ((validate env sig d (Sol.cand bytes)).code = 1 →
      (validate env sig d (Sol.cand bytes)).submitted = true ∧
      (validate env sig d (Sol.cand bytes)).minedInc = true ∧
      (validate env sig d (Sol.cand bytes)).notified = true ∧
      (validate env sig d (Sol.cand bytes)).data.solved = true) ∧
    ((validate env sig d (Sol.cand bytes)).code ≠ 1 →
      (validate env sig d (Sol.cand bytes)).code = 0 ∧
      (validate env sig d (Sol.cand bytes)).submitted = false ∧
      ((validate env sig d (Sol.cand bytes)).data.solved = true → d.solved = true)) ∧
    (∀ stoppers : List Bool, ∀ ownTid i : Nat, i < stoppers.length → i + 1 ≠ ownTid →
      (notifyBlockDone stoppers ownTid).getD i false = true) := by
  have hnotify : ∀ stoppers : List Bool, ∀ ownTid i : Nat,
      i < stoppers.length → i + 1 ≠ ownTid →
      (notifyBlockDone stoppers ownTid).getD i false = true := by
    intro stoppers ownTid i hi hno
    unfold notifyBlockDone
    rw [List.getD_eq_getElem?_getD, List.getElem?_map, List.getElem?_range hi]
    simp [hno]
  by_cases hle : env.blockHash
      ⟨d.header.extraData, d.header.nonce, bytes, d.header.bits, d.header.prevBlock⟩ ≤
      env.compactToBig d.header.bits
  · by_cases hrc : env.validateEquihash env.n env.k
        (env.serializeBytes
          ⟨d.header.extraData, d.header.nonce, bytes, d.header.bits, d.header.prevBlock⟩)
        (d.header.nonce : Int) bytes
    · refine ⟨?_, ?_, ?_, hnotify⟩ <;> simp [validate, hne, hle, hrc]
    · have hrc2 : env.validateEquihash env.n env.k
          (env.serializeBytes
            ⟨d.header.extraData, d.header.nonce, bytes, d.header.bits, d.header.prevBlock⟩)
          (d.header.nonce : Int) bytes = false := by simpa using hrc
      refine ⟨?_, ?_, ?_, hnotify⟩ <;> simp [validate, hne, hle, hrc2]
  · refine ⟨?_, ?_, ?_, hnotify⟩ <;> simp [validate, hne, hle]

/-- C4 witness: over the concrete environment `env0` a fresh session accepts
the candidate with proof bytes `[1]` and returns 1. -/
theorem C4_candidate_accept_iff_witness :
    (validate env0 ⟨false, false, false⟩ d0 (Sol.cand [1])).code = 1 :=
  (C4_candidate_accept_iff env0 ⟨false, false, false⟩ d0 [1] rfl).1.mpr (by decide)

/-- C10: on a candidate processed by a not-already-exiting session, the
proof bytes are spliced into the header's EquihashSolution area (the accept
decision of C4 is computed on that spliced header), and a rejected
candidate (return code 0) leaves the mutations in place: the header keeps
the spliced solution and, when the hash was within the target, the
session's serialized header bytes keep the re-serialization of the spliced
header — nothing is restored. -/
theorem C10_candidate_mutations_persist (env : MinerEnv) (sig : Signals)
    (d : CallbackData) (bytes : List Nat) (hne : d.exiting = false) :
    ((validate env sig d (Sol.cand bytes)).data.header.equihashSolution = bytes) ∧
    ((validate env sig d (Sol.cand bytes)).code = 0 →
      (validate env sig d (Sol.cand bytes)).data.header =
        { d.header with equihashSolution := bytes } ∧
      (env.blockHash { d.header with equihashSolution := bytes } ≤
          env.compactToBig d.header.bits →
        (validate env sig d (Sol.cand bytes)).data.headerBytes =
          env.serializeBytes { d.header with equihashSolution := bytes })) := by
  by_cases hle : env.blockHash
      ⟨d.header.extraData, d.header.nonce, bytes, d.header.bits, d.header.prevBlock⟩ ≤
      env.compactToBig d.header.bits
  · by_cases hrc : env.validateEquihash env.n env.k
        (env.serializeBytes
          ⟨d.header.extraData, d.header.nonce, bytes, d.header.bits, d.header.prevBlock⟩)
        (d.header.nonce : Int) bytes
    · simp [validate, hne, hle, hrc]
    · have hrc2 : env.validateEquihash env.n env.k
          (env.serializeBytes
            ⟨d.header.extraData, d.header.nonce, bytes, d.header.bits, d.header.prevBlock⟩)
          (d.header.nonce : Int) bytes = false := by simpa using hrc
      simp [validate, hne, hle, hrc2]
  · simp [validate, hne, hle]

/-- C10 witness: over `envReject` (whose verifier rejects everything) a
fresh session rejects the candidate `[3]` with code 0, yet the header keeps
the spliced solution bytes and the serialized header bytes keep the
re-serialization of the spliced header. -/
theorem C10_witness :
    (validate envReject ⟨false, false, false⟩ d0 (Sol.cand [3])).code = 0 ∧
    (validate envReject ⟨false, false, false⟩ d0
        (Sol.cand [3])).data.header.equihashSolution = [3] ∧
    (validate envReject ⟨false, false, false⟩ d0 (Sol.cand [3])).data.headerBytes =
      envReject.serializeBytes { d0.header with equihashSolution := [3] } := by
  have h := C10_candidate_mutations_persist envReject ⟨false, false, false⟩ d0 [3] rfl
  exact ⟨by decide, h.1, (h.2 (by decide)).2 (by decide)⟩

/-- Invariant tying a session's submit count to its terminal state: while
searching, nothing is submitted and both terminal flags are clear; a
session that ended solved has submitted exactly once; a session that ended
aborted has submitted nothing. -/
def SessionInv (s : SessionState) : Prop :=
  match s.finished with
  | none => s.data.solved = false ∧ s.data.exiting = false ∧ s.submits = 0
  | some true => s.submits = 1
  | some false => s.submits = 0

theorem validate_submit_shape (env : MinerEnv) (sig : Signals) (d : CallbackData)
    (sol : Sol) (hs : d.solved = false) (he : d.exiting = false) :
    ((validate env sig d sol).submitted = true ∧
      (validate env sig d sol).data.solved = true) ∨
    ((validate env sig d sol).submitted = false ∧
      (validate env sig d sol).data.solved = false) := by
  cases sol with
  | null =>
    obtain ⟨t, q, tk⟩ := sig
    cases t
    · cases q
      · cases tk
        · right; simp [validate, he, hs]
        · by_cases hok : (updateBlockTime env d).ok
          · right; simp [validate, he, hok, updateBlockTime_solved, hs]
          · have hok2 : (updateBlockTime env d).ok = false := by simpa using hok
            right; simp [validate, he, hok2, updateBlockTime_solved, hs]
      · right; simp [validate, he]
    · right; simp [validate, he]
  | cand bytes =>
    by_cases hle : env.blockHash
        ⟨d.header.extraData, d.header.nonce, bytes, d.header.bits, d.header.prevBlock⟩ ≤
        env.compactToBig d.header.bits
    · by_cases hrc : env.validateEquihash env.n env.k
          (env.serializeBytes
            ⟨d.header.extraData, d.header.nonce, bytes, d.header.bits, d.header.prevBlock⟩)
          (d.header.nonce : Int) bytes
      · left; simp [validate, he, hle, hrc]
      · have hrc2 : env.validateEquihash env.n env.k
            (env.serializeBytes
              ⟨d.header.extraData, d.header.nonce, bytes, d.header.bits, d.header.prevBlock⟩)
            (d.header.nonce : Int) bytes = false := by simpa using hrc
        right; simp [validate, he, hle, hrc2]
    · right; simp [validate, he, hle, hs]

theorem sessionStep_inv (env : MinerEnv) (s : SessionState) (e : SessionEv)
    (h : SessionInv s) : SessionInv (sessionStep env s e) := by
  obtain ⟨d, fin, sb⟩ := s
  rcases fin with _ | b
  · obtain ⟨hs, he, hb⟩ : d.solved = false ∧ d.exiting = false ∧ sb = 0 := h
    subst hb
    cases e with
    | sel sig =>
      obtain ⟨t, q, tk⟩ := sig
      cases t
      · cases q
        · cases tk
          · simp [sessionStep, SessionInv, hs, he]
          · by_cases hok : (updateBlockTime env d).ok
            · simp [sessionStep, hok, SessionInv, updateBlockTime_solved,
                updateBlockTime_exiting, hs, he]
            · have hok2 : (updateBlockTime env d).ok = false := by simpa using hok
              simp [sessionStep, hok2, SessionInv]
        · simp [sessionStep, SessionInv]
      · simp [sessionStep, SessionInv]
    | val sig sol =>
      rcases validate_submit_shape env sig d sol hs he with ⟨h1, h2⟩ | ⟨h1, h2⟩
      · have hex : IsExiting (validate env sig d sol).data = true := by
          simp [IsExiting, h2]
        simp [sessionStep, hex, h1, h2, SessionInv]
      · by_cases hex : IsExiting (validate env sig d sol).data
        · simp [sessionStep, hex, h1, h2, SessionInv]
        · have hex2 : IsExiting (validate env sig d sol).data = false := by
            simpa using hex
          have hexit : (validate env sig d sol).data.exiting = false := by
            simpa [IsExiting, h2] using hex2
          simp [sessionStep, hex2, h1, h2, hexit, SessionInv]
  · cases e <;> simpa [sessionStep, SessionInv] using h

theorem foldl_sessionStep_inv (env : MinerEnv) :
    ∀ (evs : List SessionEv) (s : SessionState), SessionInv s →
      SessionInv (evs.foldl (sessionStep env) s)
  | [], _, h => h
  | e :: evs, s, h => foldl_sessionStep_inv env evs _ (sessionStep_inv env s e h)

theorem SessionInv_submits (s : SessionState) (hi : SessionInv s) :
    (s.finished = some true → s.submits = 1) ∧
    (s.finished = some false → s.submits = 0) := by
  obtain ⟨d, fin, sb⟩ := s
  rcases fin with _ | b
  · exact ⟨by simp, by simp⟩
  · cases b
    · exact ⟨by simp, fun _ => hi⟩
    · exact ⟨fun _ => hi, by simp⟩

/-- C1: for every search session, the orchestration keeps the submit count
tied to the terminal state: a pool-mode session that ends solved performs
exactly one submitBlock call (the validator's) and a session that ends
aborted performs none.  In discrete mode, however, GenerateNBlocks submits
again after solveBlock returns true (src/cpuminer.go line 766) on top of
the validator's submit at line 259, so a solved discrete-mode attempt
performs two submitBlock calls — the concrete evaluation in the last
conjunct exhibits the double submit. -/
theorem C1_submit_count (env : MinerEnv) (tid : Nat) (hd : Header)
    (evs : List SessionEv) :
    ((runSession env tid hd evs).finished = some true →
      (runSession env tid hd evs).submits = 1) ∧
    ((runSession env tid hd evs).finished = some false →
      (runSession env tid hd evs).submits = 0) ∧
    discreteModeSubmits env0 1 header0
      [SessionEv.val ⟨false, false, false⟩ (Sol.cand [1])] = 2 := by
  have hinv : SessionInv (runSession env tid hd evs) :=
    foldl_sessionStep_inv env evs _ ⟨rfl, rfl, rfl⟩
  obtain ⟨h1, h2⟩ := SessionInv_submits _ hinv
  exact ⟨h1, h2, by decide⟩

theorem launchWorkers_spec : ∀ (k : Nat) (st : CtrlState),
    (launchWorkers k st).running = st.running ++ List.range' (st.stoppers + 1) k ∧
    (launchWorkers k st).stoppers = st.stoppers + k ∧
    (launchWorkers k st).retired = st.retired := by
  intro k
  induction k with
  | zero => intro st; simp [launchWorkers]
  | succ k ih =>
    intro st
    obtain ⟨h1, h2, h3⟩ := ih { st with running := st.running ++ [st.stoppers + 1],
                                        stoppers := st.stoppers + 1 }
    refine ⟨?_, ?_, ?_⟩
    · simp only [launchWorkers]
      rw [h1, List.range'_succ]
      simp
    · simp only [launchWorkers]
      rw [h2]
      show st.stoppers + 1 + k = st.stoppers + (k + 1)
      omega
    · simp only [launchWorkers]
      rw [h3]

theorem retireWorkers_spec (target : Nat) (st : CtrlState) :
    (retireWorkers target st).running = st.running.take target ∧
    (retireWorkers target st).retired = st.retired ++ (st.running.drop target).reverse ∧
    (retireWorkers target st).stoppers = st.stoppers := by
  generalize hn : st.running.length = n
  induction n using Nat.strong_induction_on generalizing st with
  | _ n ih =>
    by_cases h : st.running.length ≤ target
    · rw [retireWorkers, if_pos h]
      refine ⟨(List.take_of_length_le h).symm, ?_, rfl⟩
      rw [List.drop_of_length_le h]
      simp
    · obtain ⟨run, stp, ret⟩ := st
      simp only at h hn
      push_neg at h
      have hne : run ≠ [] := by
        intro he
        rw [he] at h
        simp at h
      obtain ⟨l, a, hsr⟩ : ∃ l a, run = l ++ [a] :=
        ⟨run.dropLast, run.getLast hne, (List.dropLast_concat_getLast hne).symm⟩
      subst hsr
      have hlt : target ≤ l.length := by
        simp at h
        omega
      rw [retireWorkers, if_neg (by simpa using h)]
      simp only [List.dropLast_concat, List.getLastD_concat]
      have hlen : (⟨l, stp, ret ++ [a]⟩ : CtrlState).running.length = n - 1 := by
        simp at hn ⊢
        omega
      have hn1 : n - 1 < n := by
        simp at hn
        omega
      obtain ⟨g1, g2, g3⟩ := ih (n - 1) hn1 ⟨l, stp, ret ++ [a]⟩ hlen
      refine ⟨?_, ?_, g3⟩
      · rw [g1]
        simp only
        rw [List.take_append_of_le_length hlt]
      · rw [g2]
        simp only
        rw [List.drop_append_of_le_length hlt]
        simp

/-- C5: once the controller processes a resize signal with target W ≥ 1
(a resize to 0 is never signalled: SetNumWorkers(0) stops the miner
instead), the live worker list has length exactly W; a deficit is filled by
appending newly launched workers with the next sequential ids, and a
surplus is retired from the most recently created end (LIFO: the retired
ids are the dropped suffix in reverse creation order); and NumWorkers
reflects the configured value immediately after SetNumWorkers, before any
convergence. -/
theorem C5_resize_convergence (st : CtrlState) (target : Nat) (ht : 1 ≤ target) :
    ((processResize target st).running.length = target) ∧
    (st.running.length < target →
      (processResize target st).running =
        st.running ++ List.range' (st.stoppers + 1) (target - st.running.length)) ∧
    (target ≤ st.running.length →
      (processResize target st).running = st.running.take target ∧
      (processResize target st).retired =
        st.retired ++ (st.running.drop target).reverse) ∧
    (∀ dflt : Nat, ∀ n : Int, ∀ st0 : MinerSt,
      (0 ≤ n → (setNumWorkers dflt n st0).st.numWorkers = n.toNat % 2 ^ 32) ∧
      (n < 0 → (setNumWorkers dflt n st0).st.numWorkers = dflt) ∧
      (0 ≤ n → n < 2 ^ 31 → NumWorkers (setNumWorkers dflt n st0).st = n)) := by
  have hnum : ∀ dflt : Nat, ∀ n : Int, ∀ st0 : MinerSt,
      (0 ≤ n → (setNumWorkers dflt n st0).st.numWorkers = n.toNat % 2 ^ 32) ∧
      (n < 0 → (setNumWorkers dflt n st0).st.numWorkers = dflt) ∧
      (0 ≤ n → n < 2 ^ 31 → NumWorkers (setNumWorkers dflt n st0).st = n) := by
    intro dflt n st0
    refine ⟨?_, ?_, ?_⟩
    · intro hpos
      have hlt : ¬ n < 0 := by omega
      simp [setNumWorkers, hlt]
    · intro hneg
      simp [setNumWorkers, hneg]
    · intro hpos hup
      have hlt : ¬ n < 0 := by omega
      have hmod : n.toNat % 2 ^ 32 = n.toNat := by omega
      simp [setNumWorkers, hlt, NumWorkers, toInt32, hmod]
      rw [if_pos (by omega)]
      omega
  by_cases heq : target = st.running.length
  · refine ⟨?_, ?_, ?_, hnum⟩
    · simp [processResize, heq]
    · intro hlt
      omega
    · intro hle
      have htk : st.running.length ≤ target := by omega
      constructor
      · simp [processResize, heq, List.take_of_length_le htk]
      · simp [processResize, heq, List.drop_of_length_le htk]
  · by_cases hlt : st.running.length < target
    · obtain ⟨g1, g2, g3⟩ := launchWorkers_spec (target - st.running.length) st
      refine ⟨?_, fun _ => ?_, fun hle => absurd hle (by omega), hnum⟩
      · simp [processResize, heq, hlt, g1]
        omega
      · simpa [processResize, heq, hlt] using g1
    · obtain ⟨g1, g2, g3⟩ := retireWorkers_spec target st
      have hgt : target ≤ st.running.length := by omega
      refine ⟨?_, fun hc => absurd hc (by omega), fun _ => ?_, hnum⟩
      · simp [processResize, heq, hlt, g1, List.length_take]
        omega
      · constructor
        · simpa [processResize, heq, hlt] using g1
        · simpa [processResize, heq, hlt] using g2

/-- C5 witness: resizing a two-worker pool (ids 1 and 2, three stoppers
ever created) down to one retires the most recent worker and leaves one
running. -/
theorem C5_resize_convergence_witness :
    (processResize 1 ⟨[1, 2], 2, []⟩).running.length = 1 ∧
    (processResize 1 ⟨[1, 2], 2, []⟩).running = [1] ∧
    (processResize 1 ⟨[1, 2], 2, []⟩).retired = [2] := by
  have h := C5_resize_convergence ⟨[1, 2], 2, []⟩ 1 (by decide)
  refine ⟨h.1, ?_, ?_⟩
  · have := (h.2.2.1 (by decide)).1
    simpa using this
  · have := (h.2.2.1 (by decide)).2
    simpa using this

/-- Supervisor state in discrete (GenerateNBlocks) mode. -/
def stDiscrete : MinerSt := { numWorkers := 1, started := true, discreteMining := true }

/-- C7 counterexample: SetNumWorkers(0) while the miner runs in discrete
mode does not stop it — Stop is a no-op in discrete mode — even though the
configured count becomes 0; the started flag stays set and the wake-up
signal is still sent. -/
theorem C7_counterexample :
    stDiscrete.started = true ∧
    (setNumWorkers 4 0 stDiscrete).st.started = true ∧
    (setNumWorkers 4 0 stDiscrete).stopPerformed = false ∧
    (setNumWorkers 4 0 stDiscrete).st.numWorkers = 0 ∧
    (setNumWorkers 4 0 stDiscrete).signalled = true := by
  decide

/-- C7 amended: SetNumWorkers(0) stops the miner when it runs in pool mode
(in discrete mode Stop is a no-op and the miner keeps running) and the
configured count becomes 0; a negative argument resets the count to the
platform default; a positive argument sets it; and the controller wake-up
signal is sent exactly when the started flag is set afterwards (a stopped
miner's controller is never signalled). -/
theorem C7_setNumWorkers_behavior (dflt : Nat) (n : Int) (st : MinerSt) :
    (n = 0 →
      (setNumWorkers dflt n st).st.numWorkers = 0 ∧
      (st.discreteMining = false → (setNumWorkers dflt n st).st.started = false) ∧
      (st.discreteMining = true → (setNumWorkers dflt n st).st.started = st.started) ∧
      ((setNumWorkers dflt n st).stopPerformed = true ↔
        st.started = true ∧ st.discreteMining = false)) ∧
    (n < 0 →
      (setNumWorkers dflt n st).st.numWorkers = dflt ∧
      (setNumWorkers dflt n st).st.started = st.started) ∧
    (0 < n →
      (setNumWorkers dflt n st).st.numWorkers = n.toNat % 2 ^ 32 ∧
      (setNumWorkers dflt n st).st.started = st.started) ∧
    ((setNumWorkers dflt n st).signalled = (setNumWorkers dflt n st).st.started) := by
  obtain ⟨w, srt, dm⟩ := st
  refine ⟨?_, ?_, ?_, ?_⟩
  · intro h0
    subst h0
    cases srt <;> cases dm <;>
      simp [setNumWorkers, stopMiner]
  · intro hneg
    have h0 : ¬ (n = 0) := by omega
    simp [setNumWorkers, stopMiner, hneg, h0]
  · intro hpos
    have h0 : ¬ (n = 0) := by omega
    have hneg : ¬ (n < 0) := by omega
    simp [setNumWorkers, stopMiner, hneg, h0]
  · by_cases h0 : n = 0
    · subst h0
      cases srt <;> cases dm <;> by_cases hneg : (0 : Int) < 0 <;>
        simp [setNumWorkers, stopMiner]
    · by_cases hneg : n < 0 <;> simp [setNumWorkers, stopMiner, h0, hneg]

/-- C6: the controller's shutdown sequence closes every live worker's quit
channel (all at indices before the wait), then waits for all workers, then
— and only then — closes speedMonitorQuit; and in every well-formed
shutdown trace (worker reports precede the worker's exit, exits precede the
wait return, the monitor stop follows the wait return) every hash-count
report precedes the closing of speedMonitorQuit, so no report reaches the
speed monitor after it has been told to stop. -/
theorem C6_shutdown_ordering :
    (∀ ws : List Nat, ∀ k w : Nat,
      (controllerShutdownEvents ws)[k]? = some (ShutdownEv.closeWorkerQuit w) →
      k < ws.length) ∧
    (∀ ws : List Nat,
      (controllerShutdownEvents ws)[ws.length]? = some ShutdownEv.workersWaited ∧
      (controllerShutdownEvents ws)[ws.length + 1]? =
        some ShutdownEv.closeSpeedMonitorQuit) ∧
    (∀ tr : List ShutdownEv, WFShutdown tr →
      ∀ i j : Fin tr.length, isReport (tr.get i) = true →
        tr.get j = ShutdownEv.closeSpeedMonitorQuit → (i : Nat) < j) := by
  refine ⟨?_, ?_, ?_⟩
  · intro ws k w hk
    by_contra hge
    push_neg at hge
    have hlen : (ws.map ShutdownEv.closeWorkerQuit).length ≤ k := by simpa using hge
    rw [controllerShutdownEvents, List.getElem?_append_right hlen] at hk
    simp only [List.length_map] at hk
    rcases hmk : k - ws.length with _ | _ | m <;> rw [hmk] at hk <;> simp at hk
  · intro ws
    constructor
    · rw [controllerShutdownEvents,
        List.getElem?_append_right (by simp : (ws.map ShutdownEv.closeWorkerQuit).length ≤ ws.length)]
      simp
    · rw [controllerShutdownEvents,
        List.getElem?_append_right (by simp : (ws.map ShutdownEv.closeWorkerQuit).length ≤ ws.length + 1)]
      simp
  · intro tr hwf i j hrep hclose
    obtain ⟨hwait, hreports, hsmq⟩ := hwf
    obtain ⟨m, him, hexm, _⟩ := hreports i hrep
    obtain ⟨mw, hmwj, hmw⟩ := hsmq j hclose
    have hmmw : (m : Nat) < mw := hwait m mw hexm hmw
    omega

theorem cursorAfter_closed (k : Nat) : cursorAfter k = ⟨0, k % 2 ^ 32⟩ := by
  have h32 : (2 : Nat) ^ 32 = 4294967296 := by norm_num
  induction k with
  | zero =>
    simp [cursorAfter]
  | succ k ih =>
    rw [cursorAfter, ih]
    unfold loopStep u32 maxNonce
    rw [if_pos (by omega)]
    simp only [LoopCursor.mk.injEq, true_and]
    omega

/-- C9 counterexample: the inner nonce loop of solveBlock never exits on
its own — its guard `i <= maxNonce` holds for every 32-bit counter value,
so absent a terminal condition the cursor after 2^32 iterations equals the
cursor after 0 iterations (the pair (first extra-nonce, nonce 0) is visited
again rather than every pair exactly once), and the outer guard
`extraNonce < maxExtraNonce` excludes the final 64-bit counter value
2^64 − 1, which is therefore never visited at all. -/
theorem C9_counterexample :
    cursorAfter (2 ^ 32) = cursorAfter 0 ∧
    innerGuard (cursorAfter (2 ^ 32)).nonce false = true ∧
    outerGuard maxExtraNonce false = false := by
  refine ⟨?_, ?_, ?_⟩
  · rw [cursorAfter_closed, cursorAfter_closed]
    norm_num
  · rw [cursorAfter_closed]
    simp [innerGuard, maxNonce]
  · simp [outerGuard]

/-- C9 amended: the extra-nonce loop guard excludes the counter value
2^64 − 1, and the 32-bit nonce loop guard `i ≤ 2^32 − 1` holds for every
32-bit value, so absent any terminal condition the nested enumeration stays
at the first extra-nonce value and re-enumerates the 32-bit nonce range
indefinitely (the cursor after k iterations is (0, k mod 2^32)); the
attempt relies on the shutdown, abandon and staleness conditions to end.
Within each inner iteration the signals are checked non-blockingly before
the evaluator is invoked: an invocation implies no abandon or shutdown
signal was pending and any timer fire passed the staleness test, and the
header's nonce field holds the current counter value (as a uint32) at the
invocation. -/
theorem C9_enumeration_behavior (k : Nat) :
    cursorAfter k = ⟨0, k % 2 ^ 32⟩ ∧
    (∀ i : Nat, i < 2 ^ 32 → innerGuard i false = true) ∧
    (∀ en : Nat, ∀ e : Bool, outerGuard en e = true ↔ en < maxExtraNonce ∧ e = false) ∧
    (∀ env : MinerEnv, ∀ sig : Signals, ∀ d : CallbackData, ∀ i : Nat,
      (solveBlockInnerIter env sig d i).invoked = true →
      sig.termFired = false ∧ sig.quitFired = false ∧
      (sig.tickerFired = true → (updateBlockTime env d).ok = true)) ∧
    (∀ env : MinerEnv, ∀ sig : Signals, ∀ d : CallbackData, ∀ i : Nat,
      (solveBlockInnerIter env sig d i).invoked = true →
      (solveBlockInnerIter env sig d i).data.header.nonce = u32 i) := by
  have hsel : ∀ env : MinerEnv, ∀ sig : Signals, ∀ d : CallbackData, ∀ i : Nat,
      (solveBlockInnerIter env sig d i).invoked = true →
      sig.termFired = false ∧ sig.quitFired = false ∧
      (sig.tickerFired = true → (updateBlockTime env d).ok = true) := by
    intro env sig d i hinv
    obtain ⟨t, q, tk⟩ := sig
    cases t
    · cases q
      · cases tk
        · simp
        · by_cases hok : (updateBlockTime env d).ok
          · simp [hok]
          · have hok2 : (updateBlockTime env d).ok = false := by simpa using hok
            simp [solveBlockInnerIter, hok2] at hinv
      · simp [solveBlockInnerIter] at hinv
    · simp [solveBlockInnerIter] at hinv
  refine ⟨cursorAfter_closed k, ?_, ?_, hsel, ?_⟩
  · intro i hi
    simp only [innerGuard, maxNonce, Bool.not_false, Bool.and_true, decide_eq_true_eq]
    omega
  · intro en e
    cases e <;> simp [outerGuard]
  · intro env sig d i hinv
    obtain ⟨ht, hq, htk⟩ := hsel env sig d i hinv
    obtain ⟨t, q, tk⟩ := sig
    simp only at ht hq
    subst ht
    subst hq
    cases tk
    · simp [solveBlockInnerIter]
    · have hok : (updateBlockTime env d).ok = true := htk rfl
      simp [solveBlockInnerIter, hok]

end ExccdMiner
